import Mathlib

/-!
Verification model of the Jar core runtime (`core.py`): the intent registry,
plugin discovery, the hybrid lexical+semantic router and the
confidence-fallback dispatcher.

Modelling conventions:
* A spaCy `Doc` produced by `nlp(text)` is represented by the text itself
  (`Doc := String`); every operation the code performs on a doc
  (Python truthiness, `similarity`, `PhraseMatcher` pattern matching) is an
  abstract `Provider` function taking the underlying text.  `nlp` is
  deterministic on its input, so this loses nothing.
* Python floats are modelled by `ℚ`; the literals `0.6`, `0.4`, `0.55`
  become `3/5`, `2/5`, `11/20`.
* Python exceptions are modelled by `Except String`: a raised exception is
  `.error msg`.  `route` and `handle` therefore live in `Except String`,
  mirroring the fact that the scoring loop in `JarCore.route` contains no
  `try`/`except` of its own.
* Python dicts (`_example_docs`, `_plugin_errors`) are insertion-ordered
  association lists; `d[k] = v` replaces the value in place when the key is
  present and appends otherwise, and a missing key on read is a `KeyError`.
* Loading a plugin file (`importlib` exec plus `_extract_intents`, including
  the `pip` retry and the `chat_with_jarvis` convention fallback) is pure
  I/O on external modules; a `Source` carries the resulting list of intent
  dicts, or the error message if executing/extraction raised.  The sources
  handed to `discoverPlugins` are the `*.py` files of the modules directory
  in the sorted order `sorted(self.modules_dir.glob("*.py"))` produces.
* The handler stored in an `Intent` is an opaque value of a type parameter
  `H`; dispatch is modelled as returning which handler is invoked with which
  text (the shared state passed is always the core itself).  The arity
  fallback of `_wrapped` is modelled separately and explicitly
  (`PyHandler` / `wrappedCall`), with the shared mutable state threaded
  through the successive call attempts.
-/

set_option autoImplicit false

namespace Jarvis

/-- A processed text: the model's stand-in for a spaCy `Doc`. -/
abbrev Doc := String

/-- The embedding provider consumed by the core: Python truthiness of a doc
(`if self._example_docs[(intent.name, ex)]`), `Doc.similarity` (which may
raise), and the `PhraseMatcher(attr="LOWER")` test of one pattern against the
input. -/
structure Provider where
  docOk : Doc → Bool
  sim : Doc → Doc → Except String ℚ
  pmatch : Doc → Doc → Bool

/-- `Intent` from `core.py`: name, examples, handler, owning plugin,
description, per-intent threshold (default `0.55`). -/
structure Intent (H : Type) where
  name : String
  examples : List String
  handler : H
  plugin : String
  description : String := ""
  threshold : ℚ := 11/20
  deriving Repr, DecidableEq

/-- `IntentMatch` from `core.py`: the matched intent, its final score and the
score breakdown `f"sim={s_score:.2f}, phrase={p_score}"`, modelled by the
pair of components the string renders. -/
structure IntentMatch (H : Type) where
  intent : Intent H
  score : ℚ
  reason : ℚ × ℚ
  deriving Repr, DecidableEq

/-- The mutable registry state of a `JarCore`: `_intents`, `_example_docs`,
`_phrase_matcher` (each entry is an intent name with its example patterns;
`none` before the first `_build_matchers`), and `_plugin_errors`. -/
structure JarState (H : Type) where
  intents : List (Intent H)
  exampleDocs : List ((String × String) × Doc)
  matcher : Option (List (String × List Doc))
  pluginErrors : List (String × String)
  deriving Repr, DecidableEq

/-- Python dict read `d[k]`: value of the first (unique) entry with this key. -/
def dget {α β : Type} [DecidableEq α] : List (α × β) → α → Option β
  | [], _ => none
  | e :: rest, k => if e.1 = k then some e.2 else dget rest k

/-- Python dict write `d[k] = v`: replace in place if the key is present,
append otherwise. -/
def dset {α β : Type} [DecidableEq α] : List (α × β) → α → β → List (α × β)
  | [], k, v => [(k, v)]
  | e :: rest, k, v => if e.1 = k then (k, v) :: rest else e :: dset rest k v

/-- `JarCore.register_intent`: append the intent and cache `nlp(ex)` for each
of its example phrases. -/
def registerIntent {H : Type} (st : JarState H) (i : Intent H) : JarState H :=
  { st with
    intents := st.intents ++ [i]
    exampleDocs := i.examples.foldl (fun d ex => dset d (i.name, ex) ex) st.exampleDocs }

/-- `JarCore._build_matchers`: rebuild the phrase matcher from scratch over the
current intent list (`matcher.add(intent.name, [make_doc ex for ex])`). -/
def buildMatchers {H : Type} (st : JarState H) : JarState H :=
  { st with matcher := some (st.intents.map (fun i => (i.name, i.examples))) }

/-- One intent descriptor as produced by `_extract_intents`: the handler field
already resolved (`getattr` on a name / the value itself), `.error` carrying
the `TypeError` message when the resolved handler is not callable. -/
structure IntentDict (H : Type) where
  name : String
  examples : List String
  handler : Except String H
  threshold : Option ℚ := none
  deriving Repr

/-- One plugin file: its stem (`path.stem`) and the outcome of executing the
module and extracting its intent dicts (`.error` when that raised, after the
`pip`-install retry). -/
structure Source (H : Type) where
  name : String
  load : Except String (List (IntentDict H))
  deriving Repr

/-- `JarCore._intent_from_dict` without the `_wrapped` closure (the arity
fallback is modelled separately by `wrappedCall`): fail with the `TypeError`
when the handler is not callable, otherwise build the `Intent` with the
plugin name and the dict's threshold defaulting to `0.55`. -/
def intentFromDict {H : Type} (d : IntentDict H) (pluginName : String) :
    Except String (Intent H) :=
  match d.handler with
  | .error e => .error e
  | .ok h => .ok ⟨d.name, d.examples, h, pluginName, "", d.threshold.getD (11/20)⟩

/-- The registration loop of `_load_plugin_file`: register intents in order;
a raise from `_intent_from_dict` stops the loop, keeping the intents already
registered and returning the error message. -/
def registerDicts {H : Type} (st : JarState H) (pluginName : String) :
    List (IntentDict H) → JarState H × Option String
  | [] => (st, none)
  | d :: rest =>
    match intentFromDict d pluginName with
    | .error e => (st, some e)
    | .ok i => registerDicts (registerIntent st i) pluginName rest

/-- `JarCore._load_plugin_file`: everything runs under one `try`; any raise is
recorded as `_plugin_errors[plugin_name] = str(e)` and swallowed. -/
def loadPluginFile {H : Type} (st : JarState H) (src : Source H) : JarState H :=
  match src.load with
  | .error e => { st with pluginErrors := dset st.pluginErrors src.name e }
  | .ok ds =>
    match registerDicts st src.name ds with
    | (st', none) => st'
    | (st', some e) => { st' with pluginErrors := dset st'.pluginErrors src.name e }

/-- Python `name.startswith("_")`: the first character is an underscore. -/
def underscored (s : String) : Bool := s.data.head? = some '_'

/-- `JarCore.discover_plugins`: clear `_intents` (and nothing else), load every
source whose name does not start with `_`, then rebuild the matchers. -/
def discoverPlugins {H : Type} (st : JarState H) (sources : List (Source H)) :
    JarState H :=
  buildMatchers
    ((sources.filter (fun s => !underscored s.name)).foldl loadPluginFile
      { st with intents := [] })

/-- The intent names the phrase matcher fires on for this input: an intent is
hit when any of its patterns matches (`{strings[m_id]: 1 for m_id, _, _ in
matcher(doc)}`); with no matcher built yet there are no hits. -/
def phraseHits (p : Provider) (matcher : Option (List (String × List Doc)))
    (input : Doc) : List String :=
  match matcher with
  | none => []
  | some entries =>
    (entries.filter (fun e => e.2.any (fun pat => p.pmatch input pat))).map
      (fun e => e.1)

/-- The similarity list of `route`'s comprehension for one intent:
`[doc.similarity(docs[(name, ex)]) for ex in examples if docs[(name, ex)]]`.
A missing cache key is a `KeyError`; a falsy doc is filtered out; a raise from
`similarity` propagates. -/
def exSims (p : Provider) (docs : List ((String × String) × Doc))
    (iname : String) (input : Doc) : List String → Except String (List ℚ)
  | [] => .ok []
  | ex :: rest =>
    match dget docs (iname, ex) with
    | none => .error "KeyError"
    | some d =>
      if p.docOk d then
        match p.sim input d with
        | .error e => .error e
        | .ok q =>
          match exSims p docs iname input rest with
          | .error e => .error e
          | .ok qs => .ok (q :: qs)
      else exSims p docs iname input rest

/-- Python `max(l or [0])`: `0` for an empty list, otherwise the maximum. -/
def pyMaxOr0 : List ℚ → ℚ
  | [] => 0
  | a :: rest => rest.foldl max a

/-- One iteration of the scoring loop of `JarCore.route`: lexical hit from the
phrase matcher, semantic score `max(sims or [0])`, and
`final_score = (s_score * 0.6) + (p_score * 0.4)`. -/
def scoreIntent {H : Type} (p : Provider) (docs : List ((String × String) × Doc))
    (hits : List String) (input : Doc) (i : Intent H) :
    Except String (IntentMatch H) :=
  let pS : ℚ := if i.name ∈ hits then 1 else 0
  match exSims p docs i.name input i.examples with
  | .error e => .error e
  | .ok sims =>
    let s := pyMaxOr0 sims
    .ok ⟨i, s * (3/5) + pS * (2/5), (s, pS)⟩

/-- The whole scoring loop: score every registered intent in order; a raise
for any one intent aborts the loop. -/
def scoreAll {H : Type} (p : Provider) (docs : List ((String × String) × Doc))
    (hits : List String) (input : Doc) :
    List (Intent H) → Except String (List (IntentMatch H))
  | [] => .ok []
  | i :: rest =>
    match scoreIntent p docs hits input i with
    | .error e => .error e
    | .ok m =>
      match scoreAll p docs hits input rest with
      | .error e => .error e
      | .ok ms => .ok (m :: ms)

/-- One comparison step of Python `max` with `key=lambda m: m.score`: the
current best is replaced only on a strictly greater key. -/
def pymaxStep {H : Type} (b c : IntentMatch H) : IntentMatch H :=
  if c.score > b.score then c else b

/-- Python `max(matches, key=lambda m: m.score) if matches else None`: the
first of several maximal elements wins. -/
def pymax {H : Type} : List (IntentMatch H) → Option (IntentMatch H)
  | [] => none
  | a :: rest => some (rest.foldl pymaxStep a)

/-- `JarCore.route`: embed the input once, collect the phrase hits, score
every intent, return the best match (`none` only when no intent is
registered). -/
def routeE {H : Type} (p : Provider) (st : JarState H) (text : String) :
    Except String (Option (IntentMatch H)) :=
  match scoreAll p st.exampleDocs (phraseHits p st.matcher text) text st.intents with
  | .error e => .error e
  | .ok ms => .ok (pymax ms)

/-- The outcome of dispatch: which intent's handler is invoked with which
input text (the shared state passed along is always the core itself), or the
fixed fallback string. -/
inductive DispatchOutcome (H : Type) where
  | invoke (i : Intent H) (text : String)
  | message (s : String)
  deriving Repr, DecidableEq

/-- The fallback arm of `JarCore.handle`:
`next((i for i in self._intents if i.name == "chat"), None)`, invoking it when
found and answering the fixed string otherwise. -/
def fallbackChat {H : Type} (st : JarState H) (text : String) :
    Except String (DispatchOutcome H) :=
  match st.intents.find? (fun i => i.name = "chat") with
  | some chat => .ok (.invoke chat text)
  | none => .ok (.message "I don't understand.")

/-- `JarCore.handle`: route, and when there is no match or the best score is
below the fixed `0.4` floor redirect to the `"chat"` intent (or answer the
fixed string); otherwise invoke the matched intent's handler. -/
def handleE {H : Type} (p : Provider) (st : JarState H) (text : String) :
    Except String (DispatchOutcome H) :=
  match routeE p st text with
  | .error e => .error e
  | .ok none => fallbackChat st text
  | .ok (some m) =>
    if m.score < 2/5 then fallbackChat st text
    else .ok (.invoke m.intent text)

/-- The outcome of one Python call attempt on a raw handler, acting on the
shared mutable state: a returned value, a raised `TypeError` (from signature
rejection or from inside the body — indistinguishable to the caller), or some
other exception.  Each case carries the state as left by the attempt. -/
inductive CallRes (σ ρ : Type) where
  | ok (r : ρ) (s : σ)
  | typeError (s : σ)
  | raised (e : String) (s : σ)
  deriving Repr, DecidableEq

/-- A raw handler as `_wrapped` sees it: its behaviour under a two-argument
call `_fn(user_text, core)`, a one-argument call `_fn(user_text)`, and a
no-argument call `_fn()`. -/
structure PyHandler (σ ρ : Type) where
  call2 : String → σ → CallRes σ ρ
  call1 : String → σ → CallRes σ ρ
  call0 : σ → CallRes σ ρ

/-- The `_wrapped` closure of `_intent_from_dict`: try `_fn(user_text, core)`;
on `TypeError` try `_fn(user_text)`; on `TypeError` again call `_fn()`.  Any
non-`TypeError` exception propagates, and state changes made by an attempt
before it raised are kept for the next attempt. -/
def wrappedCall {σ ρ : Type} (h : PyHandler σ ρ) (t : String) (s : σ) :
    CallRes σ ρ :=
  match h.call2 t s with
  | .ok r s1 => .ok r s1
  | .raised e s1 => .raised e s1
  | .typeError s1 =>
    match h.call1 t s1 with
    | .ok r s2 => .ok r s2
    | .raised e s2 => .raised e s2
    | .typeError s2 => h.call0 s2

/-- Equality of `JarState`s up to `_plugin_errors`: the part of the registry
state that intent registration reads and writes. -/
def Agree {H : Type} (s1 s2 : JarState H) : Prop :=
  s1.intents = s2.intents ∧ s1.exampleDocs = s2.exampleDocs ∧ s1.matcher = s2.matcher

/-- Equality of intents up to the `threshold` field. -/
def eqET {H : Type} (a b : Intent H) : Prop :=
  a.name = b.name ∧ a.examples = b.examples ∧ a.handler = b.handler ∧
    a.plugin = b.plugin ∧ a.description = b.description

/-- Equality of intent matches up to the matched intent's `threshold`. -/
def matchET {H : Type} (m1 m2 : IntentMatch H) : Prop :=
  eqET m1.intent m2.intent ∧ m1.score = m2.score ∧ m1.reason = m2.reason

/-- Equality of dispatch outcomes up to the invoked intent's `threshold`:
in particular both sides make the same invoke-versus-message decision. -/
def outcomeET {H : Type} : DispatchOutcome H → DispatchOutcome H → Prop
  | .invoke i t, .invoke j u => eqET i j ∧ t = u
  | .message s, .message u => s = u
  | _, _ => False

/-- Lift a relation to `Except` results: both raise the same exception or
both return related values. -/
def exRel {ε α β : Type} (R : α → β → Prop) : Except ε α → Except ε β → Prop
  | .ok a, .ok b => R a b
  | .error e, .error f => e = f
  | _, _ => False

/-- Lift a relation to `Option`: both empty or both present and related. -/
def optRel {α β : Type} (R : α → β → Prop) : Option α → Option β → Prop
  | none, none => True
  | some a, some b => R a b
  | _, _ => False

/-- A concrete embedding provider for witnesses: similarity `1` exactly on
equal texts, every doc usable, a pattern matches exactly its own text. -/
def trivProvider : Provider :=
  ⟨fun _ => true, fun a b => .ok (if a = b then 1 else 0),
    fun input pat => pat.toLower = input.toLower⟩

/-- A concrete provider whose similarity is always `1/2` and whose phrase
matcher never fires: it produces exact score ties between intents. -/
def constSimProvider : Provider :=
  ⟨fun _ => true, fun _ _ => .ok (1/2), fun _ _ => false⟩

/-- A concrete provider whose similarity raises exactly on the weather
example doc and succeeds everywhere else. -/
def badSimProvider : Provider :=
  ⟨fun _ => true,
    fun _ b => if b = "whats the weather" then .error "boom" else .ok (1/2),
    fun _ _ => false⟩

/-- A concrete plugin source contributing the `chat` intent. -/
def chatSrc : Source String :=
  ⟨"chat", .ok [⟨"chat", ["chat", "hey", "hello", "hi"], .ok "handle_chat", some (1/5)⟩]⟩

/-- A concrete plugin source contributing a `weather` intent. -/
def weatherSrc : Source String :=
  ⟨"weather", .ok [⟨"weather", ["whats the weather"], .ok "handle_weather", none⟩]⟩

/-- A concrete source whose load raises. -/
def brokenSrc : Source String := ⟨"broken", .error "ImportError"⟩

/-- The registry state of a freshly constructed core before discovery. -/
def emptyState : JarState String := ⟨[], [], none, []⟩

/-- The state after a first discovery pass over the chat and weather
sources. -/
def demoState : JarState String := discoverPlugins emptyState [chatSrc, weatherSrc]

/-- The state after a second, hot-reload discovery pass in which the chat
source has disappeared. -/
def demoState2 : JarState String := discoverPlugins demoState [weatherSrc]

/-- The concrete `chat` intent registered by `chatSrc`. -/
def chatIntentVal : Intent String :=
  ⟨"chat", ["chat", "hey", "hello", "hi"], "handle_chat", "chat", "", 1/5⟩

/-- A concrete single-example intent named `a`. -/
def aIntentVal : Intent String := ⟨"a", ["x"], "h1", "p", "", 11/20⟩

/-- A concrete single-example intent named `b`. -/
def bIntentVal : Intent String := ⟨"b", ["y"], "h2", "p", "", 11/20⟩

/-- A literal two-intent registry in which both intents tie exactly under
`constSimProvider`. -/
def tieState : JarState String :=
  ⟨[aIntentVal, bIntentVal],
    [(("a", "x"), "x"), (("b", "y"), "y")],
    some [("a", ["x"]), ("b", ["y"])], []⟩

/-- A concrete low-scoring `weather` intent. -/
def wLowVal : Intent String := ⟨"weather", ["z"], "hw", "p", "", 11/20⟩

/-- A concrete `chat` intent registered second in `chatLowState`. -/
def chatLowVal : Intent String := ⟨"chat", ["hey"], "hc", "p", "", 1/5⟩

/-- A literal registry whose best match scores below `0.4` under
`constSimProvider` and which registers a `chat` intent second. -/
def chatLowState : JarState String :=
  ⟨[wLowVal, chatLowVal],
    [(("weather", "z"), "z"), (("chat", "hey"), "hey")],
    some [("weather", ["z"]), ("chat", ["hey"])], []⟩

/-- `chatLowState` with both thresholds replaced, for the threshold
non-interference witness. -/
def chatLowStateThr : JarState String :=
  ⟨[⟨"weather", ["z"], "hw", "p", "", 9/10⟩, ⟨"chat", ["hey"], "hc", "p", "", 1/2⟩],
    [(("weather", "z"), "z"), (("chat", "hey"), "hey")],
    some [("weather", ["z"]), ("chat", ["hey"])], []⟩

/-- A handler accepting only a single argument: the two-argument call is
rejected with a signature `TypeError` (no side effect), the one-argument
call succeeds. -/
def singleArgHandler : PyHandler Nat String :=
  ⟨fun _ s => .typeError s, fun t s => .ok ("got " ++ t) s, fun s => .typeError s⟩

/-- A handler that counts its executions in the shared state and raises
`TypeError` from inside its body on the first two attempts. -/
def countingHandler : PyHandler Nat String :=
  ⟨fun _ s => .typeError (s + 1), fun _ s => .typeError (s + 1), fun s => .ok "done" (s + 1)⟩

/-- A concrete intent whose single example is the text `badSimProvider`
raises on. -/
def betaWVal : Intent String := ⟨"bw", ["whats the weather"], "hb", "p", "", 11/20⟩

/-- A literal registry pairing `a` with the intent `badSimProvider` raises
on. -/
def badState : JarState String :=
  ⟨[aIntentVal, betaWVal],
    [(("a", "x"), "x"), (("bw", "whats the weather"), "whats the weather")],
    some [("a", ["x"]), ("bw", ["whats the weather"])], []⟩

/-- A provider for which exactly the doc `"u"` is unusable (falsy). -/
def unusableProvider : Provider :=
  ⟨fun d => !(d == "u"), fun _ _ => .ok (1/2), fun _ _ => false⟩

/-- A concrete intent whose single cached example doc is unusable under
`unusableProvider`. -/
def uIntentVal : Intent String := ⟨"u1", ["u"], "h", "p", "", 11/20⟩

/-- A literal registry pairing the unusable-example intent with `a`. -/
def unusState : JarState String :=
  ⟨[uIntentVal, aIntentVal],
    [(("u1", "u"), "u"), (("a", "x"), "x")],
    some [("u1", ["u"]), ("a", ["x"])], []⟩

/-- The embedding-cache invariant: every example phrase of every registered
intent has its cached doc in `_example_docs`. -/
def cacheOK {H : Type} (st : JarState H) : Prop :=
  ∀ i ∈ st.intents, ∀ ex ∈ i.examples, dget st.exampleDocs (i.name, ex) = some ex

theorem dget_dset_self {α β : Type} [DecidableEq α] (d : List (α × β)) (k : α) (v : β) :
    dget (dset d k v) k = some v := by
  induction d with
  | nil => simp [dget, dset]
  | cons e rest ih =>
    by_cases h : e.1 = k
    · simp [dset, h, dget]
    · simp [dset, h, dget, ih]

theorem dget_dset_ne {α β : Type} [DecidableEq α] (d : List (α × β)) {k k' : α} (v : β)
    (h : k ≠ k') : dget (dset d k' v) k = dget d k := by
  have h1 : ¬ k' = k := fun hh => h hh.symm
  induction d with
  | nil =>
    simp only [dset, dget]
    rw [if_neg h1]
  | cons e rest ih =>
    simp only [dset]
    by_cases he : e.1 = k'
    · rw [if_pos he]
      simp only [dget]
      rw [if_neg h1, if_neg (by rw [he]; exact h1)]
    · rw [if_neg he]
      simp only [dget]
      by_cases hk : e.1 = k
      · rw [if_pos hk, if_pos hk]
      · rw [if_neg hk, if_neg hk, ih]

theorem dget_dset_keep {α β : Type} [DecidableEq α] (d : List (α × β)) (k k' : α)
    (v' : β) (x : β) (h : dget d k = some x) (hv : k = k' → v' = x) :
    dget (dset d k' v') k = some x := by
  by_cases hk : k = k'
  · subst hk
    rw [dget_dset_self, hv rfl]
  · rw [dget_dset_ne d v' hk, h]

theorem dget_regfold_keep (exs : List String) (n : String) :
    ∀ (d : List ((String × String) × Doc)) (m e : String),
      dget d (m, e) = some e →
      dget (exs.foldl (fun d0 ex => dset d0 (n, ex) ex) d) (m, e) = some e := by
  induction exs with
  | nil => intro d m e h; simpa using h
  | cons ex rest ih =>
    intro d m e h
    refine ih _ m e ?_
    refine dget_dset_keep _ _ _ _ _ h ?_
    intro hk
    exact (congrArg Prod.snd hk).symm

theorem dget_regfold_mem (exs : List String) (n : String) :
    ∀ (d : List ((String × String) × Doc)) (ex : String), ex ∈ exs →
      dget (exs.foldl (fun d0 e => dset d0 (n, e) e) d) (n, ex) = some ex := by
  induction exs with
  | nil => intro d ex h; cases h
  | cons e rest ih =>
    intro d ex h
    rcases List.mem_cons.mp h with he | hr
    · subst he
      exact dget_regfold_keep rest n _ n ex (dget_dset_self d (n, ex) ex)
    · exact ih _ ex hr

theorem cacheOK_register {H : Type} (st : JarState H) (i : Intent H)
    (h : cacheOK st) : cacheOK (registerIntent st i) := by
  intro j hj ex hex
  rcases List.mem_append.mp hj with hj | hj
  · exact dget_regfold_keep _ _ _ _ _ (h j hj ex hex)
  · rcases List.mem_singleton.mp hj with rfl
    exact dget_regfold_mem _ _ _ _ hex

theorem cacheOK_registerDicts {H : Type} (pn : String) (ds : List (IntentDict H)) :
    ∀ st : JarState H, cacheOK st → cacheOK (registerDicts st pn ds).1 := by
  induction ds with
  | nil => intro st h; exact h
  | cons d rest ih =>
    intro st h
    unfold registerDicts
    cases intentFromDict d pn with
    | error e => exact h
    | ok i => exact ih _ (cacheOK_register st i h)

theorem loadPluginFile_error {H : Type} (st : JarState H) (s : Source H) (e : String)
    (hl : s.load = .error e) :
    loadPluginFile st s = { st with pluginErrors := dset st.pluginErrors s.name e } := by
  unfold loadPluginFile; rw [hl]

theorem loadPluginFile_ok {H : Type} (st : JarState H) (s : Source H)
    (ds : List (IntentDict H)) (hl : s.load = .ok ds) :
    loadPluginFile st s =
      (match registerDicts st s.name ds with
        | (st', none) => st'
        | (st', some e) => { st' with pluginErrors := dset st'.pluginErrors s.name e }) := by
  unfold loadPluginFile; rw [hl]

theorem cacheOK_load {H : Type} (st : JarState H) (s : Source H)
    (h : cacheOK st) : cacheOK (loadPluginFile st s) := by
  rcases hl : s.load with e | ds
  · rw [loadPluginFile_error st s e hl]; exact h
  · have h1 := cacheOK_registerDicts s.name ds st h
    rw [loadPluginFile_ok st s ds hl]
    rcases hr : registerDicts st s.name ds with ⟨st', err⟩
    rw [hr] at h1
    cases err with
    | none => exact h1
    | some e => exact h1

theorem cacheOK_foldl {H : Type} (l : List (Source H)) :
    ∀ st : JarState H, cacheOK st → cacheOK (l.foldl loadPluginFile st) := by
  induction l with
  | nil => intro st h; exact h
  | cons s rest ih => intro st h; exact ih _ (cacheOK_load st s h)

/-- C2: the claim as stated is false — the example-embedding cache is never
cleared by discovery, so an entry of a previous pass survives a pass that no
longer registers its intent.  Concretely: after a first pass registering
`chat` and `weather` and a second pass registering only `weather`, the intent
list and matcher hold only `weather`, yet the cache still answers for the
`chat` example `"hey"`. -/
theorem claim_C2_counterexample :
    demoState2.intents.map (fun i => i.name) = ["weather"] ∧
      demoState2.matcher = some [("weather", ["whats the weather"])] ∧
      dget demoState2.exampleDocs ("chat", "hey") = some "hey" := by
  refine ⟨by decide, by decide, by decide⟩

/-- C2 (amended): every discovery pass fully clears and repopulates the
intent list and rebuilds the phrase matcher so that it reflects exactly the
intents of that pass, and every current intent's example phrase has its
cached embedding; the example-embedding cache itself, however, is only added
to and may retain entries of earlier passes. -/
theorem claim_C2 {H : Type} (st : JarState H) (sources : List (Source H)) :
    (discoverPlugins st sources).matcher =
        some ((discoverPlugins st sources).intents.map (fun i => (i.name, i.examples))) ∧
      cacheOK (discoverPlugins st sources) := by
  constructor
  · rfl
  · have h0 : cacheOK ({ st with intents := [] } : JarState H) := by
      intro i hi; cases hi
    exact cacheOK_foldl _ _ h0

/-- C2 witness: the amended theorem evaluated on a concrete discovery pass:
the matcher reflects exactly the two registered intents, and the cached doc
of the chat example `"hey"` is present. -/
theorem claim_C2_witness :
    demoState.matcher = some (demoState.intents.map (fun i => (i.name, i.examples))) ∧
      dget demoState.exampleDocs ("chat", "hey") = some "hey" := by
  refine ⟨(claim_C2 emptyState [chatSrc, weatherSrc]).1, ?_⟩
  have hmem : chatIntentVal ∈ demoState.intents := by
    have hi : demoState.intents =
        chatIntentVal :: [⟨"weather", ["whats the weather"], "handle_weather", "weather", "", 11/20⟩] := rfl
    rw [hi]
    exact List.mem_cons_self _ _
  exact (claim_C2 emptyState [chatSrc, weatherSrc]).2 chatIntentVal hmem "hey" (by decide)

theorem registerDicts_matcher {H : Type} (pn : String) (ds : List (IntentDict H)) :
    ∀ st : JarState H, ((registerDicts st pn ds).1).matcher = st.matcher := by
  induction ds with
  | nil => intro st; rfl
  | cons d rest ih =>
    intro st
    simp only [registerDicts]
    rcases hfd : intentFromDict d pn with e | i
    · rfl
    · exact ih (registerIntent st i)

theorem registerDicts_errors {H : Type} (pn : String) (ds : List (IntentDict H)) :
    ∀ st : JarState H, ((registerDicts st pn ds).1).pluginErrors = st.pluginErrors := by
  induction ds with
  | nil => intro st; rfl
  | cons d rest ih =>
    intro st
    simp only [registerDicts]
    rcases hfd : intentFromDict d pn with e | i
    · rfl
    · exact ih (registerIntent st i)

theorem registerDicts_congr {H : Type} (pn : String) (ds : List (IntentDict H)) :
    ∀ st1 st2 : JarState H, st1.intents = st2.intents →
      st1.exampleDocs = st2.exampleDocs →
      (registerDicts st1 pn ds).1.intents = (registerDicts st2 pn ds).1.intents ∧
        (registerDicts st1 pn ds).1.exampleDocs = (registerDicts st2 pn ds).1.exampleDocs ∧
        (registerDicts st1 pn ds).2 = (registerDicts st2 pn ds).2 := by
  induction ds with
  | nil => intro st1 st2 hi hd; exact ⟨hi, hd, rfl⟩
  | cons d rest ih =>
    intro st1 st2 hi hd
    simp only [registerDicts]
    rcases hfd : intentFromDict d pn with e | i
    · exact ⟨hi, hd, rfl⟩
    · exact ih _ _ (by simp [registerIntent, hi]) (by simp [registerIntent, hd])

theorem buildMatchers_intents {H : Type} (st : JarState H) :
    (buildMatchers st).intents = st.intents := rfl

theorem buildMatchers_docs {H : Type} (st : JarState H) :
    (buildMatchers st).exampleDocs = st.exampleDocs := rfl

theorem buildMatchers_errors {H : Type} (st : JarState H) :
    (buildMatchers st).pluginErrors = st.pluginErrors := rfl

theorem buildMatchers_matcher {H : Type} (st : JarState H) :
    (buildMatchers st).matcher = some (st.intents.map (fun i => (i.name, i.examples))) := rfl

theorem agree_load {H : Type} (s : Source H) (st1 st2 : JarState H)
    (h : Agree st1 st2) : Agree (loadPluginFile st1 s) (loadPluginFile st2 s) := by
  obtain ⟨hi, hd, hm⟩ := h
  rcases hl : s.load with e | ds
  · rw [loadPluginFile_error st1 s e hl, loadPluginFile_error st2 s e hl]
    exact ⟨hi, hd, hm⟩
  · rw [loadPluginFile_ok st1 s ds hl, loadPluginFile_ok st2 s ds hl]
    have hc := registerDicts_congr s.name ds st1 st2 hi hd
    have m1 := registerDicts_matcher s.name ds st1
    have m2 := registerDicts_matcher s.name ds st2
    rcases hr1 : registerDicts st1 s.name ds with ⟨a1, b1⟩
    rcases hr2 : registerDicts st2 s.name ds with ⟨a2, b2⟩
    simp only [hr1, hr2] at hc m1 m2
    obtain ⟨ci, cd, ce⟩ := hc
    subst ce
    cases b1 with
    | none => exact ⟨ci, cd, by rw [m1, m2, hm]⟩
    | some e =>
      refine ⟨ci, cd, ?_⟩
      show a1.matcher = a2.matcher
      rw [m1, m2, hm]

theorem agree_load_error {H : Type} (st : JarState H) (s : Source H) (e : String)
    (hl : s.load = .error e) : Agree (loadPluginFile st s) st := by
  rw [loadPluginFile_error st s e hl]
  exact ⟨rfl, rfl, rfl⟩

theorem agree_foldl {H : Type} (l : List (Source H)) :
    ∀ st1 st2 : JarState H, Agree st1 st2 →
      Agree (l.foldl loadPluginFile st1) (l.foldl loadPluginFile st2) := by
  induction l with
  | nil => intro st1 st2 h; exact h
  | cons s rest ih => intro st1 st2 h; exact ih _ _ (agree_load s st1 st2 h)

theorem load_errors_other {H : Type} (st : JarState H) (s : Source H) (k : String)
    (hk : s.name ≠ k) :
    dget (loadPluginFile st s).pluginErrors k = dget st.pluginErrors k := by
  rcases hl : s.load with e | ds
  · rw [loadPluginFile_error st s e hl]
    exact dget_dset_ne _ _ (Ne.symm hk)
  · rw [loadPluginFile_ok st s ds hl]
    have he := registerDicts_errors s.name ds st
    rcases hr : registerDicts st s.name ds with ⟨st', err⟩
    rw [hr] at he
    simp only at he
    cases err with
    | none => rw [he]
    | some e =>
      simp only []
      rw [dget_dset_ne _ _ (Ne.symm hk), he]

theorem foldl_errors_other {H : Type} (l : List (Source H)) (k : String) :
    ∀ st : JarState H, (∀ s ∈ l, s.name ≠ k) →
      dget ((l.foldl loadPluginFile st)).pluginErrors k = dget st.pluginErrors k := by
  induction l with
  | nil => intro st _; rfl
  | cons s rest ih =>
    intro st h
    rw [List.foldl_cons, ih _ (fun x hx => h x (List.mem_cons_of_mem s hx)),
      load_errors_other st s k (h s (List.mem_cons_self s rest))]

/-- C4: a source whose load raises is recorded in the plugin-error map under
its own name and does not prevent the other sources' intents from being
registered: discovery over the sources with the broken one inserted produces
the same intent list and matcher as discovery without it, plus the recorded
error. -/
theorem claim_C4 {H : Type} (st : JarState H) (pre post : List (Source H))
    (bad : Source H) (e : String) (hload : bad.load = .error e)
    (hname : underscored bad.name = false)
    (hdist : ∀ s ∈ pre ++ post, s.name ≠ bad.name) :
    dget (discoverPlugins st (pre ++ bad :: post)).pluginErrors bad.name = some e ∧
      (discoverPlugins st (pre ++ bad :: post)).intents =
        (discoverPlugins st (pre ++ post)).intents ∧
      (discoverPlugins st (pre ++ bad :: post)).matcher =
        (discoverPlugins st (pre ++ post)).matcher := by
  have hfl1 : (pre ++ bad :: post).filter (fun s => !underscored s.name) =
      pre.filter (fun s => !underscored s.name) ++
        bad :: post.filter (fun s => !underscored s.name) := by
    simp [List.filter_append, List.filter_cons, hname]
  have hfl2 : (pre ++ post).filter (fun s => !underscored s.name) =
      pre.filter (fun s => !underscored s.name) ++
        post.filter (fun s => !underscored s.name) := by
    simp [List.filter_append]
  unfold discoverPlugins
  rw [hfl1, hfl2, List.foldl_append, List.foldl_append, List.foldl_cons]
  set A := (pre.filter (fun s => !underscored s.name)).foldl loadPluginFile
    { st with intents := ([] : List (Intent H)) } with hA
  have hdistPost : ∀ s ∈ post.filter (fun s => !underscored s.name), s.name ≠ bad.name :=
    fun s hs => hdist s (List.mem_append.mpr (Or.inr (List.mem_filter.mp hs).1))
  have hag := agree_foldl (post.filter (fun s => !underscored s.name)) _ _
    (agree_load_error A bad e hload)
  obtain ⟨hi, _, _⟩ := hag
  refine ⟨?_, ?_, ?_⟩
  · rw [buildMatchers_errors, foldl_errors_other _ _ _ hdistPost,
      loadPluginFile_error A bad e hload]
    exact dget_dset_self _ _ _
  · rw [buildMatchers_intents, buildMatchers_intents]
    exact hi
  · rw [buildMatchers_matcher, buildMatchers_matcher, hi]

/-- C4 witness: with the broken source between the chat and weather sources,
discovery records its error and registers exactly the intents the two healthy
sources contribute. -/
theorem claim_C4_witness :
    dget (discoverPlugins emptyState [chatSrc, brokenSrc, weatherSrc]).pluginErrors
        "broken" = some "ImportError" ∧
      (discoverPlugins emptyState [chatSrc, brokenSrc, weatherSrc]).intents =
        (discoverPlugins emptyState [chatSrc, weatherSrc]).intents ∧
      (discoverPlugins emptyState [chatSrc, brokenSrc, weatherSrc]).matcher =
        (discoverPlugins emptyState [chatSrc, weatherSrc]).matcher :=
  claim_C4 emptyState [chatSrc] [weatherSrc] brokenSrc "ImportError" rfl
    (by decide) (by decide)

/-- C8: route returns an empty result exactly when zero intents are
registered, and with zero intents dispatch of any input answers the fixed
fallback message. -/
theorem claim_C8 {H : Type} (p : Provider) (st : JarState H) (text : String) :
    (routeE p st text = .ok none ↔ st.intents = []) ∧
      (st.intents = [] → handleE p st text = .ok (.message "I don't understand.")) := by
  have hroute : st.intents = [] → routeE p st text = .ok none := by
    intro h
    unfold routeE
    rw [h]
    rfl
  constructor
  · constructor
    · intro h
      rcases hl : st.intents with _ | ⟨i, rest⟩
      · rfl
      · exfalso
        unfold routeE at h
        rw [hl] at h
        simp only [scoreAll] at h
        rcases hsi : scoreIntent p st.exampleDocs (phraseHits p st.matcher text) text i with
            e | m
        · rw [hsi] at h
          cases h
        · rw [hsi] at h
          rcases hsa : scoreAll p st.exampleDocs (phraseHits p st.matcher text) text rest with
              e | ms
          · rw [hsa] at h
            cases h
          · rw [hsa] at h
            simp [pymax] at h
    · exact hroute
  · intro h
    unfold handleE
    rw [hroute h]
    unfold fallbackChat
    rw [h]
    rfl

/-- C8 witness: on the empty registry, dispatch of a concrete input yields
the fixed fallback message. -/
theorem claim_C8_witness :
    handleE trivProvider emptyState "hello" = .ok (.message "I don't understand.") :=
  (claim_C8 trivProvider emptyState "hello").2 rfl

theorem foldl_max_le (l : List ℚ) : ∀ a : ℚ, a ≤ l.foldl max a := by
  induction l with
  | nil => intro a; exact le_refl a
  | cons c r ih => intro a; exact le_trans (le_max_left a c) (ih (max a c))

theorem foldl_max_mem_le (l : List ℚ) : ∀ (a q : ℚ), q ∈ l → q ≤ l.foldl max a := by
  induction l with
  | nil => intro a q h; cases h
  | cons c r ih =>
    intro a q h
    rcases List.mem_cons.mp h with hq | hq
    · subst hq
      exact le_trans (le_max_right a q) (foldl_max_le r (max a q))
    · exact ih (max a c) q hq

theorem foldl_max_choice (l : List ℚ) : ∀ a : ℚ, l.foldl max a = a ∨ l.foldl max a ∈ l := by
  induction l with
  | nil => intro a; exact Or.inl rfl
  | cons c r ih =>
    intro a
    rcases ih (max a c) with h | h
    · rcases max_choice a c with hm | hm
      · exact Or.inl (by rw [List.foldl_cons, h, hm])
      · exact Or.inr (by rw [List.foldl_cons, h, hm]; exact List.mem_cons_self c r)
    · exact Or.inr (List.mem_cons_of_mem c h)

theorem pyMaxOr0_le (l : List ℚ) (q : ℚ) (h : q ∈ l) : q ≤ pyMaxOr0 l := by
  cases l with
  | nil => cases h
  | cons a rest =>
    rcases List.mem_cons.mp h with hq | hq
    · subst hq
      exact foldl_max_le rest q
    · exact foldl_max_mem_le rest a q hq

theorem pyMaxOr0_mem (l : List ℚ) (h : l ≠ []) : pyMaxOr0 l ∈ l := by
  cases l with
  | nil => exact absurd rfl h
  | cons a rest =>
    rcases foldl_max_choice rest a with hc | hc
    · rw [pyMaxOr0, hc]
      exact List.mem_cons_self a rest
    · exact List.mem_cons_of_mem a hc

/-- C5: when the similarity list of an intent is computed successfully and
every similarity lies in `[0,1]`, its final score is
`0.6 * semanticScore + 0.4 * lexicalHit` where the semantic score is the
maximum of the usable similarities (`0` when there are none) and the lexical
hit is `1` or `0` according to the phrase index, and the final score lies in
`[0,1]`. -/
theorem claim_C5 {H : Type} (p : Provider) (docs : List ((String × String) × Doc))
    (hits : List String) (input : Doc) (i : Intent H) (sims : List ℚ)
    (hex : exSims p docs i.name input i.examples = .ok sims)
    (hb : ∀ q ∈ sims, 0 ≤ q ∧ q ≤ 1) :
    ∃ m, scoreIntent p docs hits input i = .ok m ∧
      m.intent = i ∧
      m.score = (3/5) * pyMaxOr0 sims + (2/5) * (if i.name ∈ hits then 1 else 0) ∧
      (∀ q ∈ sims, q ≤ pyMaxOr0 sims) ∧
      (sims ≠ [] → pyMaxOr0 sims ∈ sims) ∧
      (sims = [] → pyMaxOr0 sims = 0) ∧
      0 ≤ m.score ∧ m.score ≤ 1 := by
  have hs : 0 ≤ pyMaxOr0 sims ∧ pyMaxOr0 sims ≤ 1 := by
    rcases eq_or_ne sims [] with h | h
    · rw [h]
      exact ⟨le_refl 0, by rw [pyMaxOr0]; norm_num⟩
    · exact hb _ (pyMaxOr0_mem sims h)
  refine ⟨⟨i, pyMaxOr0 sims * (3/5) + (if i.name ∈ hits then 1 else 0) * (2/5),
      (pyMaxOr0 sims, if i.name ∈ hits then 1 else 0)⟩, ?_, rfl, by ring,
      fun q hq => pyMaxOr0_le sims q hq, fun h => pyMaxOr0_mem sims h,
      fun h => by rw [h]; rfl, ?_, ?_⟩
  · unfold scoreIntent
    rw [hex]
  · by_cases hm : i.name ∈ hits
    · simp only [hm, if_pos]
      nlinarith [hs.1, hs.2]
    · simp only [hm, if_neg, if_false]
      nlinarith [hs.1, hs.2]
  · by_cases hm : i.name ∈ hits
    · simp only [hm, if_pos]
      nlinarith [hs.1, hs.2]
    · simp only [hm, if_neg, if_false]
      nlinarith [hs.1, hs.2]

/-- C5 witness: the score formula and bounds evaluated for the concrete
intent `a` of `tieState` under `trivProvider` on its own example text. -/
theorem claim_C5_witness :
    ∃ m, scoreIntent trivProvider tieState.exampleDocs [] "x" aIntentVal = .ok m ∧
      m.intent = aIntentVal ∧
      m.score = (3/5) * pyMaxOr0 [1] + (2/5) * (if aIntentVal.name ∈ [] then 1 else 0) ∧
      (∀ q ∈ [(1 : ℚ)], q ≤ pyMaxOr0 [1]) ∧
      ([(1 : ℚ)] ≠ [] → pyMaxOr0 [1] ∈ [(1 : ℚ)]) ∧
      ([(1 : ℚ)] = [] → pyMaxOr0 [1] = 0) ∧
      0 ≤ m.score ∧ m.score ≤ 1 :=
  claim_C5 trivProvider tieState.exampleDocs [] "x" aIntentVal [1] rfl
    (by intro q hq; rw [List.mem_singleton.mp hq]; norm_num)

theorem score_le_foldl {H : Type} (l : List (IntentMatch H)) :
    ∀ a : IntentMatch H, a.score ≤ (l.foldl pymaxStep a).score := by
  induction l with
  | nil => intro a; exact le_refl _
  | cons c rest ih =>
    intro a
    rw [List.foldl_cons]
    refine le_trans ?_ (ih (pymaxStep a c))
    unfold pymaxStep
    by_cases hc : c.score > a.score
    · rw [if_pos hc]; exact le_of_lt hc
    · rw [if_neg hc]

theorem pymax_first_max {H : Type} (l : List (IntentMatch H)) :
    ∀ a : IntentMatch H, ∃ l₁ l₂,
      a :: l = l₁ ++ (l.foldl pymaxStep a) :: l₂ ∧
        (∀ x ∈ l₁, x.score < (l.foldl pymaxStep a).score) ∧
        (∀ x ∈ l₂, x.score ≤ (l.foldl pymaxStep a).score) := by
  induction l with
  | nil =>
    intro a
    refine ⟨[], [], rfl, ?_, ?_⟩
    · intro x hx; cases hx
    · intro x hx; cases hx
  | cons c rest ih =>
    intro a
    rw [List.foldl_cons]
    by_cases hc : c.score > a.score
    · have hstep : pymaxStep a c = c := if_pos hc
      rw [hstep]
      obtain ⟨l₁, l₂, hsplit, hlt, hle⟩ := ih c
      have hcm : c.score ≤ (rest.foldl pymaxStep c).score := score_le_foldl rest c
      refine ⟨a :: l₁, l₂, ?_, ?_, hle⟩
      · rw [List.cons_append, ← hsplit]
      · intro x hx
        rcases List.mem_cons.mp hx with hx | hx
        · have hxa : x.score = a.score := by rw [hx]
          rw [hxa]
          exact lt_of_lt_of_le hc hcm
        · exact hlt x hx
    · have hstep : pymaxStep a c = a := if_neg hc
      rw [hstep]
      obtain ⟨l₁, l₂, hsplit, hlt, hle⟩ := ih a
      cases l₁ with
      | nil =>
        simp only [List.nil_append] at hsplit
        injection hsplit with h1 h2
        refine ⟨[], c :: l₂, ?_, ?_, ?_⟩
        · rw [List.nil_append, ← h1, h2]
        · intro x hx; cases hx
        · intro x hx
          rcases List.mem_cons.mp hx with hx | hx
          · calc x.score = c.score := by rw [hx]
              _ ≤ a.score := le_of_not_lt hc
              _ = (rest.foldl pymaxStep a).score := by rw [← h1]
          · exact hle x hx
      | cons a' l₁' =>
        simp only [List.cons_append] at hsplit
        injection hsplit with h1 h2
        have ha' : a'.score < (rest.foldl pymaxStep a).score :=
          hlt a' (List.mem_cons_self a' l₁')
        refine ⟨a :: c :: l₁', l₂, ?_, ?_, hle⟩
        · rw [List.cons_append, List.cons_append]
          exact congrArg (fun t => a :: c :: t) h2
        · intro x hx
          rcases List.mem_cons.mp hx with hx | hx
          · calc x.score = a'.score := by rw [hx, h1]
              _ < _ := ha'
          · rcases List.mem_cons.mp hx with hx | hx
            · calc x.score ≤ a.score := by rw [hx]; exact le_of_not_lt hc
                _ = a'.score := by rw [h1]
                _ < _ := ha'
            · exact hlt x (List.mem_cons_of_mem a' hx)

theorem scoreAll_ok_length {H : Type} (p : Provider)
    (docs : List ((String × String) × Doc)) (hits : List String) (input : Doc) :
    ∀ (l : List (Intent H)) (ms : List (IntentMatch H)),
      scoreAll p docs hits input l = .ok ms → ms.length = l.length := by
  intro l
  induction l with
  | nil =>
    intro ms h
    simp only [scoreAll] at h
    injection h with h
    rw [← h]
    rfl
  | cons i rest ih =>
    intro ms h
    simp only [scoreAll] at h
    rcases hsi : scoreIntent p docs hits input i with e | m
    · rw [hsi] at h; cases h
    · rw [hsi] at h
      rcases hsa : scoreAll p docs hits input rest with e | ms'
      · rw [hsa] at h; cases h
      · rw [hsa] at h
        injection h with h
        rw [← h]
        simp [ih ms' hsa]

/-- C9: when scoring every registered intent succeeds and the registry is
non-empty, route returns the first intent match of maximal final score in
registration order: the scored list splits around the returned match with
all earlier matches strictly below it and all later ones not above it. -/
theorem claim_C9 {H : Type} (p : Provider) (st : JarState H) (text : String)
    (ms : List (IntentMatch H))
    (hsa : scoreAll p st.exampleDocs (phraseHits p st.matcher text) text st.intents = .ok ms)
    (hne : st.intents ≠ []) :
    ∃ m l₁ l₂, routeE p st text = .ok (some m) ∧ ms = l₁ ++ m :: l₂ ∧
      (∀ x ∈ l₁, x.score < m.score) ∧ (∀ x ∈ l₂, x.score ≤ m.score) := by
  have hlen := scoreAll_ok_length p st.exampleDocs (phraseHits p st.matcher text) text
    st.intents ms hsa
  cases ms with
  | nil =>
    exfalso
    exact hne (List.eq_nil_of_length_eq_zero hlen.symm)
  | cons m0 rest =>
    obtain ⟨l₁, l₂, hsplit, hlt, hle⟩ := pymax_first_max rest m0
    refine ⟨rest.foldl pymaxStep m0, l₁, l₂, ?_, hsplit, hlt, hle⟩
    unfold routeE
    rw [hsa]
    rfl

/-- C9 witness: under `constSimProvider` both intents of `tieState` tie at
score `3/10`; route returns the first registered one, `a`. -/
theorem claim_C9_witness :
    ∃ m l₁ l₂, routeE constSimProvider tieState "q" = .ok (some m) ∧
      ([⟨aIntentVal, 1/2 * (3/5) + 0 * (2/5), (1/2, 0)⟩,
        ⟨bIntentVal, 1/2 * (3/5) + 0 * (2/5), (1/2, 0)⟩] : List (IntentMatch String)) =
        l₁ ++ m :: l₂ ∧
      (∀ x ∈ l₁, x.score < m.score) ∧ (∀ x ∈ l₂, x.score ≤ m.score) :=
  claim_C9 constSimProvider tieState "q"
    [⟨aIntentVal, 1/2 * (3/5) + 0 * (2/5), (1/2, 0)⟩,
      ⟨bIntentVal, 1/2 * (3/5) + 0 * (2/5), (1/2, 0)⟩]
    rfl (List.cons_ne_nil aIntentVal [bIntentVal])

theorem find?_chat_split {H : Type} (l : List (Intent H)) (c : Intent H)
    (h : l.find? (fun i => i.name = "chat") = some c) :
    ∃ l₁ l₂, l = l₁ ++ c :: l₂ ∧ c.name = "chat" ∧ ∀ x ∈ l₁, x.name ≠ "chat" := by
  induction l with
  | nil => cases h
  | cons i rest ih =>
    by_cases hi : i.name = "chat"
    · rw [List.find?_cons_of_pos _ (by simp [hi])] at h
      injection h with h
      subst h
      exact ⟨[], rest, rfl, hi, fun x hx => absurd hx (List.not_mem_nil x)⟩
    · rw [List.find?_cons_of_neg _ (by simp [hi])] at h
      obtain ⟨l₁, l₂, hsplit, hc, hpre⟩ := ih h
      refine ⟨i :: l₁, l₂, ?_, hc, ?_⟩
      · rw [List.cons_append, hsplit]
      · intro x hx
        rcases List.mem_cons.mp hx with hx | hx
        · rw [hx]; exact hi
        · exact hpre x hx

theorem find?_chat_none {H : Type} (l : List (Intent H))
    (h : l.find? (fun i => i.name = "chat") = none) : ∀ x ∈ l, x.name ≠ "chat" := by
  intro x hx
  have := List.find?_eq_none.mp h x hx
  simpa using this

/-- C1: when routing finds no match or the best score is below the fixed
`0.4` floor, dispatch invokes the first registered intent literally named
`chat` (with the input text, plus the shared state) when one exists and
answers the fixed fallback string when none does; otherwise it invokes the
matched intent's handler. -/
theorem claim_C1 {H : Type} (p : Provider) (st : JarState H) (text : String)
    (b : Option (IntentMatch H)) (hroute : routeE p st text = .ok b) :
    ((b = none ∨ ∃ m, b = some m ∧ m.score < 2/5) →
      ((∃ c l₁ l₂, st.intents = l₁ ++ c :: l₂ ∧ c.name = "chat" ∧
          (∀ x ∈ l₁, x.name ≠ "chat") ∧
          handleE p st text = .ok (.invoke c text)) ∨
        ((∀ i ∈ st.intents, i.name ≠ "chat") ∧
          handleE p st text = .ok (.message "I don't understand.")))) ∧
      (∀ m, b = some m → ¬ m.score < 2/5 →
        handleE p st text = .ok (.invoke m.intent text)) := by
  constructor
  · intro hlow
    have hfb : handleE p st text = fallbackChat st text := by
      rcases hlow with rfl | ⟨m, rfl, hm⟩
      · unfold handleE
        rw [hroute]
      · unfold handleE
        rw [hroute]
        show (if m.score < 2/5 then fallbackChat st text else _) = fallbackChat st text
        rw [if_pos hm]
    rcases hfind : st.intents.find? (fun i => i.name = "chat") with _ | c
    · right
      refine ⟨find?_chat_none _ hfind, ?_⟩
      rw [hfb]
      unfold fallbackChat
      rw [hfind]
    · left
      obtain ⟨l₁, l₂, hsplit, hc, hpre⟩ := find?_chat_split _ c hfind
      refine ⟨c, l₁, l₂, hsplit, hc, hpre, ?_⟩
      rw [hfb]
      unfold fallbackChat
      rw [hfind]
  · intro m hb hm
    subst hb
    unfold handleE
    rw [hroute]
    show (if m.score < 2/5 then fallbackChat st text else _) = _
    rw [if_neg hm]

/-- C1 witness: under `constSimProvider` the best match of `chatLowState`
scores `3/10 < 0.4`, and dispatch is redirected to the `chat` intent
registered second (the weather intent scored highest). -/
theorem claim_C1_witness :
    (∃ c l₁ l₂, chatLowState.intents = l₁ ++ c :: l₂ ∧ c.name = "chat" ∧
        (∀ x ∈ l₁, x.name ≠ "chat") ∧
        handleE constSimProvider chatLowState "q" = .ok (.invoke c "q")) ∨
      ((∀ i ∈ chatLowState.intents, i.name ≠ "chat") ∧
        handleE constSimProvider chatLowState "q" =
          .ok (.message "I don't understand.")) := by
  have hsa : scoreAll constSimProvider chatLowState.exampleDocs
      (phraseHits constSimProvider chatLowState.matcher "q") "q" chatLowState.intents =
      .ok [⟨wLowVal, 1/2 * (3/5) + 0 * (2/5), (1/2, 0)⟩,
        ⟨chatLowVal, 1/2 * (3/5) + 0 * (2/5), (1/2, 0)⟩] := rfl
  have hroute : routeE constSimProvider chatLowState "q" =
      .ok (some ⟨wLowVal, 1/2 * (3/5) + 0 * (2/5), (1/2, 0)⟩) := by
    unfold routeE
    rw [hsa]
    show Except.ok (some (pymaxStep ⟨wLowVal, 1/2 * (3/5) + 0 * (2/5), (1/2, 0)⟩
      ⟨chatLowVal, 1/2 * (3/5) + 0 * (2/5), (1/2, 0)⟩)) = _
    unfold pymaxStep
    rw [if_neg (lt_irrefl _)]
  exact (claim_C1 constSimProvider chatLowState "q" _ hroute).1
    (Or.inr ⟨_, rfl, by norm_num⟩)

theorem exSims_ok_nil_of_unusable (p : Provider) (docs : List ((String × String) × Doc))
    (iname : String) (input : Doc) :
    ∀ exs : List String,
      (∀ ex ∈ exs, ∃ d, dget docs (iname, ex) = some d ∧ p.docOk d = false) →
      exSims p docs iname input exs = .ok [] := by
  intro exs
  induction exs with
  | nil => intro _; rfl
  | cons ex rest ih =>
    intro h
    obtain ⟨d, hd, hdo⟩ := h ex (List.mem_cons_self ex rest)
    simp only [exSims]
    rw [hd]
    simp only [hdo, Bool.false_eq_true, if_false]
    exact ih (fun e he => h e (List.mem_cons_of_mem ex he))

theorem scoreAll_ok_of_each {H : Type} (p : Provider)
    (docs : List ((String × String) × Doc)) (hits : List String) (input : Doc) :
    ∀ l : List (Intent H),
      (∀ j ∈ l, ∃ m, scoreIntent p docs hits input j = .ok m) →
      ∃ ms, scoreAll p docs hits input l = .ok ms := by
  intro l
  induction l with
  | nil => intro _; exact ⟨[], rfl⟩
  | cons i rest ih =>
    intro h
    obtain ⟨m, hm⟩ := h i (List.mem_cons_self i rest)
    obtain ⟨ms, hms⟩ := ih (fun j hj => h j (List.mem_cons_of_mem i hj))
    refine ⟨m :: ms, ?_⟩
    simp only [scoreAll]
    rw [hm, hms]

/-- C3: the claim as stated is false — `route` contains no exception
handling, so a similarity failure for a single intent aborts routing.
Concretely: in a two-intent registry where the similarity computation
succeeds for `a` (it scores normally) and raises `"boom"` for `bw`, `route`
raises `"boom"` instead of returning normally. -/
theorem claim_C3_counterexample :
    scoreIntent badSimProvider badState.exampleDocs
        (phraseHits badSimProvider badState.matcher "q") "q" aIntentVal =
      .ok ⟨aIntentVal, 1/2 * (3/5) + 0 * (2/5), (1/2, 0)⟩ ∧
      routeE badSimProvider badState "q" = .error "boom" :=
  ⟨rfl, rfl⟩

/-- C3 (amended): the only degraded scoring `route` performs is for
unusable example docs: an intent all of whose cached example docs are falsy
is scored with semantic score `0` (so its score degrades to the lexical
component alone) rather than raising, and when every other intent scores
successfully route returns normally; an exception raised by the similarity
computation itself, by contrast, propagates out of `route`. -/
theorem claim_C3 {H : Type} (p : Provider) (st : JarState H) (text : String)
    (i : Intent H) (l₁ l₂ : List (Intent H))
    (hsplit : st.intents = l₁ ++ i :: l₂)
    (hunus : ∀ ex ∈ i.examples,
      ∃ d, dget st.exampleDocs (i.name, ex) = some d ∧ p.docOk d = false)
    (hothers : ∀ j ∈ l₁ ++ l₂,
      ∃ m, scoreIntent p st.exampleDocs (phraseHits p st.matcher text) text j = .ok m) :
    scoreIntent p st.exampleDocs (phraseHits p st.matcher text) text i =
      .ok ⟨i, 0 * (3/5) +
          (if i.name ∈ phraseHits p st.matcher text then 1 else 0) * (2/5),
        (0, if i.name ∈ phraseHits p st.matcher text then 1 else 0)⟩ ∧
      ∃ b, routeE p st text = .ok (some b) := by
  have hsI : scoreIntent p st.exampleDocs (phraseHits p st.matcher text) text i =
      .ok ⟨i, 0 * (3/5) +
          (if i.name ∈ phraseHits p st.matcher text then 1 else 0) * (2/5),
        (0, if i.name ∈ phraseHits p st.matcher text then 1 else 0)⟩ := by
    unfold scoreIntent
    rw [exSims_ok_nil_of_unusable p st.exampleDocs i.name text i.examples hunus]
    rfl
  refine ⟨hsI, ?_⟩
  have hall : ∀ j ∈ st.intents,
      ∃ m, scoreIntent p st.exampleDocs (phraseHits p st.matcher text) text j = .ok m := by
    intro j hj
    rw [hsplit] at hj
    rcases List.mem_append.mp hj with hj | hj
    · exact hothers j (List.mem_append.mpr (Or.inl hj))
    · rcases List.mem_cons.mp hj with hj | hj
      · rw [hj]
        exact ⟨_, hsI⟩
      · exact hothers j (List.mem_append.mpr (Or.inr hj))
  obtain ⟨ms, hms⟩ := scoreAll_ok_of_each p st.exampleDocs
    (phraseHits p st.matcher text) text st.intents hall
  have hlen := scoreAll_ok_length p st.exampleDocs
    (phraseHits p st.matcher text) text st.intents ms hms
  cases ms with
  | nil =>
    exfalso
    have : st.intents = [] := List.eq_nil_of_length_eq_zero hlen.symm
    rw [hsplit] at this
    exact List.append_ne_nil_of_right_ne_nil l₁ (List.cons_ne_nil i l₂) this
  | cons m0 rest =>
    refine ⟨rest.foldl pymaxStep m0, ?_⟩
    unfold routeE
    rw [hms]
    rfl

/-- C3 witness: the amended theorem evaluated on `unusState` under
`unusableProvider`: the intent with the unusable example doc degrades to a
lexical-only score and route returns normally. -/
theorem claim_C3_witness :
    scoreIntent unusableProvider unusState.exampleDocs
        (phraseHits unusableProvider unusState.matcher "q") "q" uIntentVal =
      .ok ⟨uIntentVal, 0 * (3/5) +
          (if uIntentVal.name ∈ phraseHits unusableProvider unusState.matcher "q"
            then 1 else 0) * (2/5),
        (0, if uIntentVal.name ∈ phraseHits unusableProvider unusState.matcher "q"
          then 1 else 0)⟩ ∧
      ∃ b, routeE unusableProvider unusState "q" = .ok (some b) :=
  claim_C3 unusableProvider unusState "q" uIntentVal [] [aIntentVal] rfl
    (by
      intro ex hex
      rw [List.mem_singleton.mp hex]
      exact ⟨"u", rfl, rfl⟩)
    (by
      intro j hj
      have hj2 : j = aIntentVal := List.mem_singleton.mp (by simpa using hj)
      rw [hj2]
      exact ⟨⟨aIntentVal, 1/2 * (3/5) + 0 * (2/5), (1/2, 0)⟩, rfl⟩)

theorem scoreIntent_rel {H : Type} (p : Provider) (docs : List ((String × String) × Doc))
    (hits : List String) (input : Doc) (i j : Intent H) (h : eqET i j) :
    exRel matchET (scoreIntent p docs hits input i) (scoreIntent p docs hits input j) := by
  obtain ⟨hn, hex, hh, hp, hd⟩ := h
  unfold scoreIntent
  rw [hn, hex]
  rcases hs : exSims p docs j.name input j.examples with e | sims
  · exact rfl
  · exact ⟨⟨hn, hex, hh, hp, hd⟩, rfl, rfl⟩

theorem scoreAll_rel {H : Type} (p : Provider) (docs : List ((String × String) × Doc))
    (hits : List String) (input : Doc) (l1 l2 : List (Intent H))
    (h : List.Forall₂ eqET l1 l2) :
    exRel (List.Forall₂ matchET) (scoreAll p docs hits input l1)
      (scoreAll p docs hits input l2) := by
  induction h with
  | nil => exact List.Forall₂.nil
  | cons hij hrest ih =>
    rename_i i j l1' l2'
    simp only [scoreAll]
    have hsi := scoreIntent_rel p docs hits input i j hij
    rcases hi : scoreIntent p docs hits input i with e | m <;>
      rcases hj : scoreIntent p docs hits input j with f | m'
    · rw [hi, hj] at hsi
      exact hsi
    · rw [hi, hj] at hsi
      cases hsi
    · rw [hi, hj] at hsi
      cases hsi
    · rw [hi, hj] at hsi
      rcases ha : scoreAll p docs hits input l1' with e | ms <;>
        rcases hb : scoreAll p docs hits input l2' with f | ms'
      · rw [ha, hb] at ih
        exact ih
      · rw [ha, hb] at ih
        cases ih
      · rw [ha, hb] at ih
        cases ih
      · rw [ha, hb] at ih
        exact List.Forall₂.cons hsi ih

theorem pymaxStep_rel {H : Type} (a1 a2 c1 c2 : IntentMatch H)
    (ha : matchET a1 a2) (hc : matchET c1 c2) :
    matchET (pymaxStep a1 c1) (pymaxStep a2 c2) := by
  unfold pymaxStep
  by_cases h : c2.score > a2.score
  · rw [if_pos h, if_pos (by rw [hc.2.1, ha.2.1]; exact h)]
    exact hc
  · rw [if_neg h, if_neg (by rw [hc.2.1, ha.2.1]; exact h)]
    exact ha

theorem foldl_pymax_rel {H : Type} (r1 r2 : List (IntentMatch H))
    (h : List.Forall₂ matchET r1 r2) :
    ∀ a1 a2 : IntentMatch H, matchET a1 a2 →
      matchET (r1.foldl pymaxStep a1) (r2.foldl pymaxStep a2) := by
  induction h with
  | nil => intro a1 a2 ha; exact ha
  | cons hc hrest ih =>
    intro a1 a2 ha
    rw [List.foldl_cons, List.foldl_cons]
    exact ih _ _ (pymaxStep_rel _ _ _ _ ha hc)

theorem pymax_rel {H : Type} (l1 l2 : List (IntentMatch H))
    (h : List.Forall₂ matchET l1 l2) :
    optRel matchET (pymax l1) (pymax l2) := by
  cases h with
  | nil => exact trivial
  | cons hc hrest => exact foldl_pymax_rel _ _ hrest _ _ hc

theorem find?_chat_rel {H : Type} (l1 l2 : List (Intent H))
    (h : List.Forall₂ eqET l1 l2) :
    optRel eqET (l1.find? (fun i => i.name = "chat"))
      (l2.find? (fun i => i.name = "chat")) := by
  induction h with
  | nil => exact trivial
  | cons hij hrest ih =>
    rename_i i j l1' l2'
    obtain ⟨hn, hex, hh, hp, hd⟩ := hij
    by_cases hj : j.name = "chat"
    · rw [List.find?_cons_of_pos _ (by simp [hn, hj]),
        List.find?_cons_of_pos _ (by simp [hj])]
      exact ⟨hn, hex, hh, hp, hd⟩
    · rw [List.find?_cons_of_neg _ (by simp [hn, hj]),
        List.find?_cons_of_neg _ (by simp [hj])]
      exact ih

theorem fallbackChat_rel {H : Type} (s1 s2 : JarState H) (text : String)
    (h : List.Forall₂ eqET s1.intents s2.intents) :
    exRel outcomeET (fallbackChat s1 text) (fallbackChat s2 text) := by
  unfold fallbackChat
  have hf := find?_chat_rel s1.intents s2.intents h
  rcases h1 : s1.intents.find? (fun i => i.name = "chat") with _ | c1 <;>
    rcases h2 : s2.intents.find? (fun i => i.name = "chat") with _ | c2 <;>
    rw [h1, h2] at hf <;> rw [h1, h2]
  · exact rfl
  · cases hf
  · cases hf
  · exact ⟨hf, rfl⟩

/-- C6: the per-intent `threshold` field never influences routing or
dispatch: two registry states whose intents are pairwise identical except
for their thresholds (and with the same caches) route to the same intent
with the same score and breakdown, and make the same
fallback-versus-dispatch decision on every input. -/
theorem claim_C6 {H : Type} (p : Provider) (s1 s2 : JarState H) (text : String)
    (hint : List.Forall₂ eqET s1.intents s2.intents)
    (hdocs : s1.exampleDocs = s2.exampleDocs) (hmat : s1.matcher = s2.matcher) :
    exRel (optRel matchET) (routeE p s1 text) (routeE p s2 text) ∧
      exRel outcomeET (handleE p s1 text) (handleE p s2 text) := by
  have hsa : exRel (List.Forall₂ matchET)
      (scoreAll p s1.exampleDocs (phraseHits p s1.matcher text) text s1.intents)
      (scoreAll p s2.exampleDocs (phraseHits p s2.matcher text) text s2.intents) := by
    rw [← hdocs, ← hmat]
    exact scoreAll_rel p s1.exampleDocs (phraseHits p s1.matcher text) text
      s1.intents s2.intents hint
  have hr : exRel (optRel matchET) (routeE p s1 text) (routeE p s2 text) := by
    unfold routeE
    rcases h1 : scoreAll p s1.exampleDocs (phraseHits p s1.matcher text) text s1.intents with
        e | ms <;>
      rcases h2 : scoreAll p s2.exampleDocs (phraseHits p s2.matcher text) text s2.intents with
        f | ms'
    · rw [h1, h2] at hsa
      exact hsa
    · rw [h1, h2] at hsa
      cases hsa
    · rw [h1, h2] at hsa
      cases hsa
    · rw [h1, h2] at hsa
      exact pymax_rel _ _ hsa
  refine ⟨hr, ?_⟩
  unfold handleE
  rcases hr1 : routeE p s1 text with e | b1 <;>
    rcases hr2 : routeE p s2 text with f | b2 <;>
    rw [hr1, hr2] at hr
  · exact hr
  · cases hr
  · cases hr
  · cases b1 with
    | none =>
      cases b2 with
      | none => exact fallbackChat_rel s1 s2 text hint
      | some m2 => cases hr
    | some m1 =>
      cases b2 with
      | none => cases hr
      | some m2 =>
        have hm12 : matchET m1 m2 := hr
        have hsc : m1.score = m2.score := hm12.2.1
        show exRel outcomeET
          (if m1.score < 2/5 then fallbackChat s1 text
            else .ok (.invoke m1.intent text))
          (if m2.score < 2/5 then fallbackChat s2 text
            else .ok (.invoke m2.intent text))
        by_cases hlt : m2.score < 2/5
        · rw [if_pos (by rw [hsc]; exact hlt), if_pos hlt]
          exact fallbackChat_rel s1 s2 text hint
        · rw [if_neg (by rw [hsc]; exact hlt), if_neg hlt]
          exact ⟨hm12.1, rfl⟩

/-- C6 witness: `chatLowState` and the same registry with both thresholds
replaced route and dispatch identically on a concrete input. -/
theorem claim_C6_witness :
    exRel (optRel matchET) (routeE constSimProvider chatLowState "q")
        (routeE constSimProvider chatLowStateThr "q") ∧
      exRel outcomeET (handleE constSimProvider chatLowState "q")
        (handleE constSimProvider chatLowStateThr "q") :=
  claim_C6 constSimProvider chatLowState chatLowStateThr "q"
    (List.Forall₂.cons ⟨rfl, rfl, rfl, rfl, rfl⟩
      (List.Forall₂.cons ⟨rfl, rfl, rfl, rfl, rfl⟩ List.Forall₂.nil))
    rfl rfl

/-- C7: the wrapped handler first attempts the two-argument call
`(inputText, core)`; when that raises `TypeError` it attempts the
one-argument call `(inputText)`; when that also raises `TypeError` it makes
the no-argument call — so a handler accepting only a single argument is
still dispatched successfully with just the input text. -/
theorem claim_C7 {σ ρ : Type} (h : PyHandler σ ρ) (t : String) (s : σ) :
    (∀ r s1, h.call2 t s = .ok r s1 → wrappedCall h t s = .ok r s1) ∧
      (∀ s1 r s2, h.call2 t s = .typeError s1 → h.call1 t s1 = .ok r s2 →
        wrappedCall h t s = .ok r s2) ∧
      (∀ s1 s2, h.call2 t s = .typeError s1 → h.call1 t s1 = .typeError s2 →
        wrappedCall h t s = h.call0 s2) := by
  refine ⟨?_, ?_, ?_⟩
  · intro r s1 h2
    unfold wrappedCall
    rw [h2]
  · intro s1 r s2 h2 h1
    unfold wrappedCall
    rw [h2]
    show (match h.call1 t s1 with
      | CallRes.ok r s2 => CallRes.ok r s2
      | CallRes.raised e s2 => CallRes.raised e s2
      | CallRes.typeError s2 => h.call0 s2) = CallRes.ok r s2
    rw [h1]
  · intro s1 s2 h2 h1
    unfold wrappedCall
    rw [h2]
    show (match h.call1 t s1 with
      | CallRes.ok r s2 => CallRes.ok r s2
      | CallRes.raised e s2 => CallRes.raised e s2
      | CallRes.typeError s2 => h.call0 s2) = h.call0 s2
    rw [h1]

/-- C7 witness: a handler whose two-argument call is rejected with a
signature `TypeError` and whose one-argument call succeeds is dispatched
with just the input text. -/
theorem claim_C7_witness :
    wrappedCall singleArgHandler "ping" 0 = .ok ("got " ++ "ping") 0 :=
  (claim_C7 singleArgHandler "ping" 0).2.1 0 ("got " ++ "ping") 0 rfl rfl

/-- C10: the arity fallback of the wrapped handler is triggered by any
`TypeError`, including one raised from inside the handler's own body after
it has mutated the shared state: when the two-argument call raises
`TypeError` leaving state `s1` and the one-argument call on `s1` raises
`TypeError` leaving state `s2`, the wrapper makes the no-argument call on
`s2` — the handler runs up to three times and the side effects of the
earlier partial executions are retained. -/
theorem claim_C10 {σ ρ : Type} (h : PyHandler σ ρ) (t : String) (s s1 s2 : σ)
    (h2 : h.call2 t s = .typeError s1) (h1 : h.call1 t s1 = .typeError s2) :
    wrappedCall h t s = h.call0 s2 := by
  unfold wrappedCall
  rw [h2]
  show (match h.call1 t s1 with
    | CallRes.ok r s2 => CallRes.ok r s2
    | CallRes.raised e s2 => CallRes.raised e s2
    | CallRes.typeError s2 => h.call0 s2) = h.call0 s2
  rw [h1]

/-- C10 witness: a handler that counts its executions in the shared state
and raises `TypeError` from inside its body on the first two attempts is
executed three times, ending with the state `3`. -/
theorem claim_C10_witness :
    wrappedCall countingHandler "x" 0 = .ok "done" 3 := by
  rw [claim_C10 countingHandler "x" 0 1 2 rfl rfl]
  rfl

end Jarvis
